import Mathlib

/-!
# Verification of the audit-log client (`AuditLogsService`)

Shallow embedding of the audit-log service found in `src/unnamed/part_007`
(the request-scoped NestJS service) and its library variant
`src/libs/utilities/src/audit-logs/services/audit-logs.service.ts`.

The helper modules `../utils/utils` (canonicalization) and
`../utils/verification` (the cryptographic proof checkers) are not part of
the repository sources; the canonicalization is modelled from the spec
(§4.1) and the proof checkers are kept abstract: every theorem is
universally quantified over a `VerifyFns` bundle supplying them.

JavaScript asynchrony is modelled with `Except`: a rejected promise is
`.error`, a fulfilled one `.ok`.  In-place mutation of a caller-supplied
object (the service's fields, the `options` argument of `logBulk`) is
modelled by returning the object's final value.  Each operation also
returns the list of primary-service POST endpoints it hit, so that
"issues zero network calls" and "no automatic retry" are statable.
-/

namespace AuditLog

/-- JSON values, as manipulated by the service.  Objects are ordered
association lists, mirroring JavaScript's insertion-ordered objects. -/
inductive Json where
  | null : Json
  | bool : Bool → Json
  | num : Int → Json
  | str : String → Json
  | arr : List Json → Json
  | obj : List (String × Json) → Json
deriving Inhabited

mutual

/-- Model of `JSON.stringify` on the `Json` type (string escaping elided:
keys and values are wrapped in plain quotes). -/
def jsonStringify : Json → String
  | .null => "null"
  | .bool true => "true"
  | .bool false => "false"
  | .num n => toString n
  | .str s => "\"" ++ s ++ "\""
  | .arr l => "[" ++ stringifyArr l ++ "]"
  | .obj l => "\x7b" ++ stringifyObj l ++ "\x7d"

def stringifyArr : List Json → String
  | [] => ""
  | [j] => jsonStringify j
  | j :: rest => jsonStringify j ++ "," ++ stringifyArr rest

def stringifyObj : List (String × Json) → String
  | [] => ""
  | [(k, v)] => "\"" ++ k ++ "\":" ++ jsonStringify v
  | (k, v) :: rest => "\"" ++ k ++ "\":" ++ jsonStringify v ++ "," ++ stringifyObj rest

end

/-- Key order used when canonically sorting the entries of a JSON object. -/
def keyLe (p q : String × Json) : Prop := p.1 ≤ q.1

/-- Strict version of `keyLe`; on nodup-key lists the sorted order is
strict, which pins the sorted list uniquely. -/
def keyLt (p q : String × Json) : Prop := p.1 < q.1

instance : DecidableRel keyLe := fun p q => inferInstanceAs (Decidable (p.1 ≤ q.1))

instance : IsTotal (String × Json) keyLe := ⟨fun p q => le_total p.1 q.1⟩

instance : IsTrans (String × Json) keyLe := ⟨fun _ _ _ h₁ h₂ => le_trans h₁ h₂⟩

instance : IsAntisymm (String × Json) keyLt :=
  ⟨fun _ _ h₁ h₂ => absurd (lt_trans h₁ h₂) (lt_irrefl _)⟩

mutual

/-- Modelled from the spec: the recursive key-ordering step of the missing
canonicalization helpers of `../utils/utils` — every object's entries are
sorted by key, recursively (spec §4.1: "deterministically orders ...
event subfields so hashes/signatures are reproducible regardless of field
insertion order"). -/
def orderJson : Json → Json
  | .null => .null
  | .bool b => .bool b
  | .num n => .num n
  | .str s => .str s
  | .arr l => .arr (orderArr l)
  | .obj l => .obj (List.insertionSort keyLe (orderObj l))

def orderArr : List Json → List Json
  | [] => []
  | j :: rest => orderJson j :: orderArr rest

def orderObj : List (String × Json) → List (String × Json)
  | [] => []
  | (k, v) :: rest => (k, orderJson v) :: orderObj rest

end

/-- Modelled from the spec: `canonicalizeEvent` of the missing
`../utils/utils` — "a canonical byte/string form suitable for signing and
hash comparison" (spec §4.1): the stringification of the key-ordered event. -/
def canonicalizeEvent (e : Json) : String := jsonStringify (orderJson e)

/-- Is the value an object or an array? -/
def isContainer : Json → Bool
  | .obj _ => true
  | .arr _ => true
  | _ => false

/-- Modelled from the spec: object/array subfields are "deterministically
key-ordered and stringified for transport" (spec §4.1). -/
def stringifySubfield (j : Json) : Json :=
  if isContainer j then .str (jsonStringify (orderJson j)) else j

/-- Modelled from the spec: `eventOrderAndStringifySubfields` of the
missing `../utils/utils` — the event object whose nested object/array
subfields have been deterministically key-ordered and stringified
(spec §4.1). -/
def eventOrderAndStringifySubfields : Json → Json
  | .obj l => .obj (List.insertionSort keyLe (l.map fun p => (p.1, stringifySubfield p.2)))
  | j => j

mutual

/-- Well-formedness of a JSON value as produced by a JavaScript object:
every object node has pairwise-distinct keys. -/
def wfJson : Json → Bool
  | .null => true
  | .bool _ => true
  | .num _ => true
  | .str _ => true
  | .arr l => wfArr l
  | .obj l => decide ((l.map Prod.fst).Nodup) && wfObj l

def wfArr : List Json → Bool
  | [] => true
  | j :: rest => wfJson j && wfArr rest

def wfObj : List (String × Json) → Bool
  | [] => true
  | (_, v) :: rest => wfJson v && wfObj rest

end

/-- One key-reordering step: permute the entries of a single object node,
at any depth. -/
inductive KeyStep : Json → Json → Prop where
  | here (l₁ l₂ : List (String × Json)) : l₁.Perm l₂ → KeyStep (.obj l₁) (.obj l₂)
  | objChild (k : String) (v v' : Json) (pre post : List (String × Json)) :
      KeyStep v v' →
      KeyStep (.obj (pre ++ (k, v) :: post)) (.obj (pre ++ (k, v') :: post))
  | arrChild (v v' : Json) (pre post : List Json) :
      KeyStep v v' → KeyStep (.arr (pre ++ v :: post)) (.arr (pre ++ v' :: post))

/-- `Reorder a b`: `b` is obtained from `a` by reordering the keys of the
event or of any of its nested object subfields (any number of times). -/
def Reorder : Json → Json → Prop := Relation.ReflTransGen KeyStep

theorem orderObj_eq_map (l : List (String × Json)) :
    orderObj l = l.map (fun p => (p.1, orderJson p.2)) := by
  induction l with
  | nil => rfl
  | cons p rest ih => cases p; simp [orderObj, ih]

theorem orderArr_eq_map (l : List Json) : orderArr l = l.map orderJson := by
  induction l with
  | nil => rfl
  | cons j rest ih => simp [orderArr, ih]

theorem wfObj_iff {l : List (String × Json)} :
    wfObj l = true ↔ ∀ p ∈ l, wfJson p.2 = true := by
  induction l with
  | nil => simp [wfObj]
  | cons p rest ih => cases p; simp [wfObj, ih]

theorem wfArr_iff {l : List Json} : wfArr l = true ↔ ∀ j ∈ l, wfJson j = true := by
  induction l with
  | nil => simp [wfArr]
  | cons j rest ih => simp [wfArr, ih]

theorem sorted_keyLt {s : List (String × Json)} (hs : List.Sorted keyLe s)
    (hnd : (s.map Prod.fst).Nodup) : List.Sorted keyLt s := by
  have hne : s.Pairwise (fun p q => p.1 ≠ q.1) := List.pairwise_map.mp hnd
  exact (hs.and hne).imp fun h => lt_of_le_of_ne h.1 h.2

/-- Two permuted entry lists with (the same) duplicate-free keys sort to the
same list: canonical key-ordering is order-independent. -/
theorem sort_eq_of_perm {l₁ l₂ : List (String × Json)} (hp : l₁.Perm l₂)
    (hnd : (l₁.map Prod.fst).Nodup) :
    List.insertionSort keyLe l₁ = List.insertionSort keyLe l₂ := by
  have hnd₂ : (l₂.map Prod.fst).Nodup := ((hp.map Prod.fst).nodup_iff).mp hnd
  have hp' : (List.insertionSort keyLe l₁).Perm (List.insertionSort keyLe l₂) :=
    ((List.perm_insertionSort keyLe l₁).trans hp).trans
      (List.perm_insertionSort keyLe l₂).symm
  have hnd₁' : ((List.insertionSort keyLe l₁).map Prod.fst).Nodup :=
    (((List.perm_insertionSort keyLe l₁).map Prod.fst).nodup_iff).mpr hnd
  have hnd₂' : ((List.insertionSort keyLe l₂).map Prod.fst).Nodup :=
    (((List.perm_insertionSort keyLe l₂).map Prod.fst).nodup_iff).mpr hnd₂
  exact List.eq_of_perm_of_sorted (r := keyLt) hp'
    (sorted_keyLt (List.sorted_insertionSort keyLe l₁) hnd₁')
    (sorted_keyLt (List.sorted_insertionSort keyLe l₂) hnd₂')

theorem keyStep_wf {a b : Json} (h : KeyStep a b) (hw : wfJson a = true) :
    wfJson b = true := by
  induction h with
  | here l₁ l₂ hp =>
    simp only [wfJson, Bool.and_eq_true, decide_eq_true_eq] at hw ⊢
    refine ⟨((hp.map Prod.fst).nodup_iff).mp hw.1, wfObj_iff.mpr fun p hp' => ?_⟩
    exact wfObj_iff.mp hw.2 p (hp.mem_iff.mpr hp')
  | objChild k v v' pre post hst ih =>
    simp only [wfJson, Bool.and_eq_true, decide_eq_true_eq] at hw ⊢
    obtain ⟨hnd, hvals⟩ := hw
    have hv : wfJson v = true := wfObj_iff.mp hvals (k, v) (by simp)
    constructor
    · simpa using (by simpa using hnd : ((pre ++ (k, v) :: post).map Prod.fst).Nodup)
    · refine wfObj_iff.mpr fun p hp' => ?_
      rcases List.mem_append.mp hp' with hmem | hmem
      · exact wfObj_iff.mp hvals p (List.mem_append.mpr (Or.inl hmem))
      · rcases List.mem_cons.mp hmem with rfl | hmem
        · exact ih hv
        · exact wfObj_iff.mp hvals p (List.mem_append.mpr (Or.inr (List.mem_cons_of_mem _ hmem)))
  | arrChild v v' pre post hst ih =>
    simp only [wfJson] at hw ⊢
    have hv : wfJson v = true := wfArr_iff.mp hw v (by simp)
    refine wfArr_iff.mpr fun j hj => ?_
    rcases List.mem_append.mp hj with hmem | hmem
    · exact wfArr_iff.mp hw j (List.mem_append.mpr (Or.inl hmem))
    · rcases List.mem_cons.mp hmem with rfl | hmem
      · exact ih hv
      · exact wfArr_iff.mp hw j (List.mem_append.mpr (Or.inr (List.mem_cons_of_mem _ hmem)))

theorem keyStep_orderJson {a b : Json} (h : KeyStep a b) (hw : wfJson a = true) :
    orderJson a = orderJson b := by
  induction h with
  | here l₁ l₂ hp =>
    simp only [wfJson, Bool.and_eq_true, decide_eq_true_eq] at hw
    have hperm : (orderObj l₁).Perm (orderObj l₂) := by
      rw [orderObj_eq_map, orderObj_eq_map]; exact hp.map _
    have hkeys : ((orderObj l₁).map Prod.fst).Nodup := by
      rw [orderObj_eq_map, List.map_map]
      simpa [Function.comp_def] using hw.1
    simp only [orderJson]
    rw [sort_eq_of_perm hperm hkeys]
  | objChild k v v' pre post hst ih =>
    simp only [wfJson, Bool.and_eq_true, decide_eq_true_eq] at hw
    have hv : wfJson v = true := wfObj_iff.mp hw.2 (k, v) (by simp)
    simp only [orderJson, orderObj_eq_map, List.map_append, List.map_cons, ih hv]
  | arrChild v v' pre post hst ih =>
    simp only [wfJson] at hw
    have hv : wfJson v = true := wfArr_iff.mp hw v (by simp)
    simp only [orderJson, orderArr_eq_map, List.map_append, List.map_cons, ih hv]

theorem reorder_wf {a b : Json} (h : Reorder a b) (hw : wfJson a = true) :
    wfJson b = true := by
  induction h with
  | refl => exact hw
  | tail _ hstep ih => exact keyStep_wf hstep ih

theorem reorder_orderJson {a b : Json} (h : Reorder a b) (hw : wfJson a = true) :
    orderJson a = orderJson b := by
  induction h with
  | refl => rfl
  | tail hchain hstep ih => exact ih.trans (keyStep_orderJson hstep (reorder_wf hchain hw))

mutual

theorem orderJson_idem : ∀ j : Json, orderJson (orderJson j) = orderJson j
  | .null => rfl
  | .bool _ => rfl
  | .num _ => rfl
  | .str _ => rfl
  | .arr l => by
    simp only [orderJson]
    rw [orderArr_eq_map (orderArr l), List.map_congr_left fun j hj => orderArr_fix l j hj]
    simp
  | .obj l => by
    simp only [orderJson]
    have hfix : orderObj (List.insertionSort keyLe (orderObj l)) =
        List.insertionSort keyLe (orderObj l) := by
      rw [orderObj_eq_map]
      have hpt : ∀ p ∈ List.insertionSort keyLe (orderObj l), (p.1, orderJson p.2) = p := by
        intro p hp
        rw [orderObj_fix l p ((List.mem_insertionSort keyLe).mp hp)]
      rw [List.map_congr_left hpt]
      simp
    rw [hfix, (List.sorted_insertionSort keyLe (orderObj l)).insertionSort_eq]

theorem orderArr_fix : ∀ l : List Json, ∀ j ∈ orderArr l, orderJson j = j
  | [], _, hj => by simp [orderArr] at hj
  | x :: rest, j, hj => by
    rw [orderArr] at hj
    rcases List.mem_cons.mp hj with rfl | hmem
    · exact orderJson_idem x
    · exact orderArr_fix rest j hmem

theorem orderObj_fix : ∀ l : List (String × Json), ∀ p ∈ orderObj l, orderJson p.2 = p.2
  | [], _, hp => by simp [orderObj] at hp
  | (k, v) :: rest, p, hp => by
    rw [orderObj] at hp
    rcases List.mem_cons.mp hp with rfl | hmem
    · exact orderJson_idem v
    · exact orderObj_fix rest p hmem

end

theorem stringifySubfield_idem (j : Json) :
    stringifySubfield (stringifySubfield j) = stringifySubfield j := by
  cases j <;> simp [stringifySubfield, isContainer]

theorem keyStep_isContainer {a b : Json} (h : KeyStep a b) :
    isContainer a = true ∧ isContainer b = true := by
  cases h <;> simp [isContainer]

theorem keyStep_stringifySubfield {a b : Json} (h : KeyStep a b) (hw : wfJson a = true) :
    stringifySubfield a = stringifySubfield b := by
  obtain ⟨ha, hb⟩ := keyStep_isContainer h
  simp only [stringifySubfield, ha, hb, if_pos, keyStep_orderJson h hw]

theorem keyStep_obj {l : List (String × Json)} {b : Json} (h : KeyStep (.obj l) b) :
    ∃ l', b = .obj l' := by
  cases h with
  | here _ l₂ _ => exact ⟨l₂, rfl⟩
  | objChild k v v' pre post _ => exact ⟨pre ++ (k, v') :: post, rfl⟩

theorem keyStep_eoss {l₁ : List (String × Json)} {b : Json} (h : KeyStep (.obj l₁) b)
    (hw : wfJson (.obj l₁) = true) :
    eventOrderAndStringifySubfields (.obj l₁) = eventOrderAndStringifySubfields b := by
  simp only [wfJson, Bool.and_eq_true, decide_eq_true_eq] at hw
  cases h with
  | here _ l₂ hp =>
    simp only [eventOrderAndStringifySubfields]
    apply congrArg
    apply sort_eq_of_perm (hp.map _)
    rw [List.map_map]
    simpa [Function.comp_def] using hw.1
  | objChild k v v' pre post hst =>
    have hv : wfJson v = true := wfObj_iff.mp hw.2 (k, v) (by simp)
    simp only [eventOrderAndStringifySubfields, List.map_append, List.map_cons,
      keyStep_stringifySubfield hst hv]

theorem reorder_obj {l : List (String × Json)} {b : Json} (h : Reorder (.obj l) b) :
    ∃ l', b = .obj l' := by
  induction h with
  | refl => exact ⟨l, rfl⟩
  | tail hchain hstep ih =>
    obtain ⟨l', rfl⟩ := ih
    exact keyStep_obj hstep

theorem reorder_eoss {l : List (String × Json)} {b : Json} (h : Reorder (.obj l) b)
    (hw : wfJson (.obj l) = true) :
    eventOrderAndStringifySubfields (.obj l) = eventOrderAndStringifySubfields b := by
  induction h with
  | refl => rfl
  | tail hchain hstep ih =>
    obtain ⟨l', rfl⟩ := reorder_obj hchain
    exact ih.trans (keyStep_eoss hstep (reorder_wf hchain hw))

theorem eoss_idem (j : Json) :
    eventOrderAndStringifySubfields (eventOrderAndStringifySubfields j) =
      eventOrderAndStringifySubfields j := by
  cases j with
  | obj l =>
    simp only [eventOrderAndStringifySubfields]
    have hpt : ∀ p ∈ List.insertionSort keyLe
        (l.map fun p => (p.1, stringifySubfield p.2)),
        ((p.1, stringifySubfield p.2) : String × Json) = p := by
      intro p hp
      obtain ⟨q, _, rfl⟩ := List.mem_map.mp ((List.mem_insertionSort keyLe).mp hp)
      simp [stringifySubfield_idem]
    rw [List.map_congr_left hpt]
    have hid : (List.insertionSort keyLe
        (l.map fun p => (p.1, stringifySubfield p.2))).map (fun p => p) =
        List.insertionSort keyLe (l.map fun p => (p.1, stringifySubfield p.2)) := by simp
    rw [hid, (List.sorted_insertionSort keyLe _).insertionSort_eq]
  | null => rfl
  | bool _ => rfl
  | num _ => rfl
  | str _ => rfl
  | arr _ => rfl

/-- C4: canonicalization is deterministic, order-independent and idempotent —
for an event (a JSON object with duplicate-free keys), reordering the keys of
the event or of any nested object subfield leaves the canonical byte output
`canonicalizeEvent` and the transport form `eventOrderAndStringifySubfields`
unchanged, and re-running either canonicalization pass on already-canonical
content is the identity.  (Pure functions: both are plain `def`s with no
state.) -/
theorem canonicalization_deterministic_idempotent
    (l : List (String × Json)) (b : Json)
    (h : Reorder (.obj l) b) (hw : wfJson (.obj l) = true) :
    canonicalizeEvent (.obj l) = canonicalizeEvent b ∧
    eventOrderAndStringifySubfields (.obj l) = eventOrderAndStringifySubfields b ∧
    orderJson (orderJson (.obj l)) = orderJson (.obj l) ∧
    eventOrderAndStringifySubfields (eventOrderAndStringifySubfields (.obj l)) =
      eventOrderAndStringifySubfields (.obj l) ∧
    canonicalizeEvent (orderJson (.obj l)) = canonicalizeEvent (.obj l) := by
  refine ⟨?_, reorder_eoss h hw, orderJson_idem _, eoss_idem _, ?_⟩
  · unfold canonicalizeEvent
    rw [reorder_orderJson h hw]
  · unfold canonicalizeEvent
    rw [orderJson_idem]

/-- Witness for C4: a concrete event whose top-level keys and the keys of a
nested object subfield are both reordered. -/
theorem canonicalization_deterministic_idempotent_witness :
    canonicalizeEvent (.obj [("b", .num 1), ("a", .obj [("y", .num 2), ("x", .num 3)])]) =
      canonicalizeEvent (.obj [("a", .obj [("x", .num 3), ("y", .num 2)]), ("b", .num 1)]) ∧
    eventOrderAndStringifySubfields
        (.obj [("b", .num 1), ("a", .obj [("y", .num 2), ("x", .num 3)])]) =
      eventOrderAndStringifySubfields
        (.obj [("a", .obj [("x", .num 3), ("y", .num 2)]), ("b", .num 1)]) ∧
    orderJson (orderJson (.obj [("b", .num 1), ("a", .obj [("y", .num 2), ("x", .num 3)])])) =
      orderJson (.obj [("b", .num 1), ("a", .obj [("y", .num 2), ("x", .num 3)])]) ∧
    eventOrderAndStringifySubfields (eventOrderAndStringifySubfields
        (.obj [("b", .num 1), ("a", .obj [("y", .num 2), ("x", .num 3)])])) =
      eventOrderAndStringifySubfields
        (.obj [("b", .num 1), ("a", .obj [("y", .num 2), ("x", .num 3)])]) ∧
    canonicalizeEvent (orderJson
        (.obj [("b", .num 1), ("a", .obj [("y", .num 2), ("x", .num 3)])])) =
      canonicalizeEvent (.obj [("b", .num 1), ("a", .obj [("y", .num 2), ("x", .num 3)])]) :=
  canonicalization_deterministic_idempotent _ _
    (Relation.ReflTransGen.tail
      (Relation.ReflTransGen.single
        (KeyStep.here _ _
          (List.Perm.swap ("a", Json.obj [("y", Json.num 2), ("x", Json.num 3)])
            ("b", Json.num 1) [])))
      (KeyStep.objChild "a" (Json.obj [("y", Json.num 2), ("x", Json.num 3)])
        (Json.obj [("x", Json.num 3), ("y", Json.num 2)]) [] [("b", Json.num 1)]
        (KeyStep.here _ _
          (List.Perm.swap ("x", Json.num 3) ("y", Json.num 2) ([] : List (String × Json))))))
    (by decide)

/-! ## The audit-log service (src/unnamed/part_007) -/

/-- Errors surfaced by the service.  `transport` models a rejected HTTP
promise, `integrity` the `InternalServerErrorException` thrown by
`verifyHash` (message and `JSON.stringify`-ed envelope), `missingId` the
`Error` thrown by `results()` on an absent id. -/
inductive SvcError where
  | transport (msg : String)
  | integrity (message : String) (envelopeJson : String)
  | missingId
deriving DecidableEq

/-- A server root snapshot (`Audit.Root`), as consumed by the search
pipeline: only `tree_name` and `size` are inspected by the service. -/
structure Root where
  tree_name : String := ""
  size : Option Nat := none
deriving DecidableEq

/-- A search-result record (`Audit.AuditRecord`).  The `*_verification`
fields are absent (`none`) until the service attaches a verdict. -/
structure AuditRecord where
  envelope : Option Json := none
  hash : Option String := none
  leaf_index : Option Nat := none
  published : Bool := false
  signature_verification : Option Bool := none
  membership_verification : Option Bool := none
  consistency_verification : Option Bool := none

/-- A single-log server result (`Audit.LogResponse`). -/
structure LogResponse where
  envelope : Option Json := none
  hash : Option String := none
  unpublished_root : Option String := none
  signature_verification : Option Bool := none
  membership_verification : Option Bool := none
  consistency_verification : Option Bool := none

/-- One resolved published root: the parsed anchored-transaction content
(or the live server root on the fallback path) plus, for anchored
transactions, the transaction id. -/
structure ResolvedRoot where
  content : Json := Json.null
  transactionId : Option String := none

/-- The cryptographic checkers imported from the missing
`../utils/verification` module.  They are kept abstract: every theorem
below holds for every choice of these functions.  Verdicts are booleans
(spec §4.2: "four independent checks, each returning a boolean verdict"). -/
structure VerifyFns where
  verifyLogHash : Json → String → Bool
  verifySignature : Option Json → Bool
  verifyLogMembershipProof : LogResponse → Option String → Bool
  verifyLogConsistencyProof : LogResponse → Option String → Option String → Bool
  verifyRecordMembershipProof : Option Root → AuditRecord → Bool
  verifyRecordConsistencyProof : List (Nat × ResolvedRoot) → AuditRecord → Bool

/-- A pluggable signing capability (spec §9). -/
structure Signer where
  sign : String → String
  publicKey : String
  algorithm : String

/-- `Audit.LogOptions`.  Booleans model the truthiness of the optional
flags. -/
structure LogOptions where
  verbose : Bool := false
  verify : Bool := false
  skipEventVerification : Bool := false
  signer : Option Signer := none
  publicKeyInfo : List (String × Json) := []

/-- `Audit.SearchOptions`. -/
structure SearchOptions where
  verifyConsistency : Bool := false
  skipEventVerification : Bool := false

/-- The request context consumed by `getLogEvent`. -/
structure ReqCtx where
  userId : Option String := none
  organizationId : Option String := none
  xForwardedFor : Option String := none
  remoteAddress : Option String := none
  methodHeader : Option String := none
  userAgent : Option String := none

/-- Configuration values read through `ConfigService`. -/
structure Config where
  configId : Option String := none
  serviceName : Option String := none

/-- The wire payload of a single-log submission (`Audit.LogData`). -/
structure LogData where
  event : Json
  config_id : Option String := none
  signature : Option String := none
  public_key : Option String := none
  verbose : Option Bool := none
  prev_root : Option String := none

/-- The HTTP body returned by the service (`PangeaResponse`).  The
`success` flag is optional: the object `logBulk` fabricates for an empty
input has no such field. -/
structure PangeaResponse (α : Type) where
  success : Option Bool := none
  result : α

/-- Set a key on a JavaScript object (overwrite in place if present,
append otherwise). -/
def objSet (l : List (String × Json)) (k : String) (v : Json) : List (String × Json) :=
  if l.any (fun p => p.1 == k) then l.map (fun p => if p.1 == k then (k, v) else p)
  else l ++ [(k, v)]

/-- Assign an optional string to a key.  Assigning `undefined` leaves a
key that is invisible to `JSON.stringify` and canonicalization, which is
modelled as removing the key. -/
def objSetOpt (l : List (String × Json)) (k : String) (v : Option String) :
    List (String × Json) :=
  match v with
  | some s => objSet l k (.str s)
  | none => l.filter (fun p => p.1 != k)

/-- JavaScript truthiness of an optional string. -/
def truthyStr : Option String → Bool
  | some s => !s.isEmpty
  | none => false

/-- `a || b` on optional strings. -/
def orFalsy (a b : Option String) : Option String := if truthyStr a then a else b

/-- The `source` metadata object `JSON.stringify({ip, method, userAgent})`;
`JSON.stringify` drops `undefined`-valued keys. -/
def mkSource (ctx : ReqCtx) : Json :=
  .obj ((match orFalsy ctx.xForwardedFor ctx.remoteAddress with
         | some s => [("ip", Json.str s)]
         | none => []) ++
        (match ctx.methodHeader with
         | some s => [("method", Json.str s)]
         | none => []) ++
        (match ctx.userAgent with
         | some s => [("userAgent", Json.str s)]
         | none => []))

/-- `getLogEvent` (part_007 lines 144–186): stamp tenant/actor/source/
service-name onto the event, canonicalize its subfields, and optionally
sign it. -/
def getLogEvent (ctx : ReqCtx) (cfg : Config) (event : Json) (opts : LogOptions) :
    LogData :=
  let fields := match event with | .obj l => l | _ => []
  let fields := objSetOpt fields "tenant_id" ctx.organizationId
  let fields := objSetOpt fields "actor" ctx.userId
  let fields := objSet fields "source" (.str (jsonStringify (mkSource ctx)))
  let fields := objSetOpt fields "service_name" cfg.serviceName
  let ev := eventOrderAndStringifySubfields (.obj fields)
  let data : LogData := { event := ev, config_id := cfg.configId }
  match opts.signer with
  | none => data
  | some signer =>
    let publicKeyInfo :=
      objSet (objSet opts.publicKeyInfo "key" (.str signer.publicKey))
        "algorithm" (.str signer.algorithm)
    { data with
      signature := some (signer.sign (canonicalizeEvent ev)),
      public_key := some (jsonStringify (.obj publicKeyInfo)) }

/-- `setRequestFields` (part_007 lines 188–199): set `verbose`, and under
`verify` also chain `prev_root` to the cached previous unpublished root
when one is known. -/
def setRequestFields (st : Option String) (data : LogData) (opts : LogOptions) :
    LogData :=
  let data := if opts.verbose then { data with verbose := some true } else data
  if opts.verify then
    let data := { data with verbose := some true }
    match st with
    | some h => { data with prev_root := some h }
    | none => data
  else data

/-- The fatal integrity error raised by `verifyHash` on a mismatch. -/
def hashErr (h : String) (e : Json) : SvcError :=
  .integrity ("Error: Fail event hash verification. Hash: " ++ h) (jsonStringify e)

/-- `verifyHash` (part_007 lines 230–244): a no-op when the envelope or
the server hash is absent; throws the fatal integrity error when both are
present and the recomputed hash check fails. -/
def verifyHash (vlh : Json → String → Bool) :
    Option Json → Option String → Except SvcError Unit
  | none, _ => .ok ()
  | some _, none => .ok ()
  | some e, some h => if vlh e h then .ok () else .error (hashErr h e)

/-- `processLogResponse` (part_007 lines 201–228).  Returns the mutated
result object together with the new `prevUnpublishedRootHash`.  A thrown
integrity error (`.error`) happens before the root update, so the caller's
state is unchanged in that case. -/
def processLogResponse (V : VerifyFns) (st : Option String) (result : LogResponse)
    (opts : LogOptions) : Except SvcError (LogResponse × Option String) :=
  let newRoot := result.unpublished_root
  let step1 : Except SvcError LogResponse :=
    if opts.skipEventVerification then .ok result
    else
      match verifyHash V.verifyLogHash result.envelope result.hash with
      | .error e => .error e
      | .ok _ =>
        .ok { result with signature_verification := some (V.verifySignature result.envelope) }
  match step1 with
  | .error e => .error e
  | .ok r1 =>
    let r2 :=
      if opts.verify then
        let rm := { r1 with
          membership_verification := some (V.verifyLogMembershipProof r1 newRoot) }
        { rm with
          consistency_verification := some (V.verifyLogConsistencyProof rm newRoot st) }
      else r1
    .ok (r2, if newRoot.isSome then newRoot else st)

/-- `.catch(callback)`: the callback either returns (the promise resolves
with `undefined`, i.e. `none`) or itself throws. -/
def catchWith {α : Type} (cb : SvcError → Option SvcError) (e : SvcError) :
    Except SvcError (Option α) :=
  match cb e with
  | none => .ok none
  | some e' => .error e'

/-- The default `callback` parameter of `log`/`logBulk`: `() => {}`. -/
def defaultCallback : SvcError → Option SvcError := fun _ => none

/-- Everything observable about one `log()` call: the submitted payload,
the primary-service endpoints POSTed, the settled promise, and the final
`prevUnpublishedRootHash`. -/
structure LogCall where
  payload : LogData
  posts : List String
  outcome : Except SvcError (Option (PangeaResponse LogResponse))
  finalState : Option String

/-- `log` (part_007 lines 70–87).  `net` is the outcome of the single
`v1/log` POST.  Note the trailing `.catch(callback)`: both transport
failures and processing errors are routed to the callback, and the
promise then resolves with the callback's return value. -/
def logOp (V : VerifyFns) (ctx : ReqCtx) (cfg : Config) (st : Option String)
    (event : Json) (opts : LogOptions) (cb : SvcError → Option SvcError)
    (net : Except SvcError (PangeaResponse LogResponse)) : LogCall :=
  let data := setRequestFields st (getLogEvent ctx cfg event opts) opts
  match net with
  | .error e =>
    { payload := data, posts := ["v1/log"], outcome := catchWith cb e, finalState := st }
  | .ok resp =>
    match processLogResponse V st resp.result opts with
    | .error e =>
      { payload := data, posts := ["v1/log"], outcome := catchWith cb e, finalState := st }
    | .ok (result', st') =>
      { payload := data, posts := ["v1/log"],
        outcome := .ok (some { resp with result := result' }), finalState := st' }

/-- The bulk request body (`Audit.LogBulkRequest`). -/
structure LogBulkRequest where
  events : List LogData
  verbose : Bool := false
  config_id : Option String := none

/-- `Audit.LogBulkResponse`. -/
structure LogBulkResponse where
  results : List LogResponse

/-- The `response.result.results.forEach(processLogResponse …)` loop of
`logBulk`: results are processed in order and the root state is threaded
through; a thrown error carries the state reached so far (earlier
in-place updates persist past the throw). -/
def processResults (V : VerifyFns) (st : Option String) (opts : LogOptions) :
    List LogResponse → Except (SvcError × Option String) (List LogResponse × Option String)
  | [] => .ok ([], st)
  | r :: rest =>
    match processLogResponse V st r opts with
    | .error e => .error (e, st)
    | .ok (r', st') =>
      match processResults V st' opts rest with
      | .error es => .error es
      | .ok (rest', st'') => .ok (r' :: rest', st'')

/-- Everything observable about one `logBulk()` call.  `finalOptions` is
the caller's `options` object after the call — `logBulk` assigns
`options.verify = false` on it in place. -/
structure BulkCall where
  payload : Option LogBulkRequest
  posts : List String
  outcome : Except SvcError (Option (PangeaResponse LogBulkResponse))
  finalState : Option String
  finalOptions : LogOptions

/-- `logBulk` (part_007 lines 108–142): short-circuits on an empty list,
otherwise builds the batch, forces `options.verify = false`, POSTs once
to `v2/log` and processes every returned result; transport and processing
errors go to the callback. -/
def logBulkOp (V : VerifyFns) (ctx : ReqCtx) (cfg : Config) (st : Option String)
    (events : List Json) (opts : LogOptions) (cb : SvcError → Option SvcError)
    (net : Except SvcError (PangeaResponse LogBulkResponse)) : BulkCall :=
  if events.isEmpty then
    { payload := none, posts := [],
      outcome := .ok (some { success := none, result := { results := [] } }),
      finalState := st, finalOptions := opts }
  else
    let logEvents := events.map (fun e => getLogEvent ctx cfg e opts)
    let data : LogBulkRequest :=
      { events := logEvents, verbose := opts.verbose, config_id := cfg.configId }
    let opts' := { opts with verify := false }
    match net with
    | .error e =>
      { payload := some data, posts := ["v2/log"], outcome := catchWith cb e,
        finalState := st, finalOptions := opts' }
    | .ok resp =>
      match processResults V st opts' resp.result.results with
      | .error (e, stErr) =>
        { payload := some data, posts := ["v2/log"], outcome := catchWith cb e,
          finalState := stErr, finalOptions := opts' }
      | .ok (results', st') =>
        { payload := some data, posts := ["v2/log"],
          outcome := .ok (some { resp with result := { results := results' } }),
          finalState := st', finalOptions := opts' }

/-- Observables of the library variant's `logBulk`
(audit-logs.service.ts lines 195–220): no callback, so the outcome is the
bare promise. -/
structure LibBulkCall where
  payload : LogBulkRequest
  posts : List String
  outcome : Except SvcError (PangeaResponse LogBulkResponse)
  finalState : Option String
  finalOptions : LogOptions

/-- `logBulk` of the library variant: identical to part_007's except that
it has NO empty-list short-circuit (the POST is issued even for `[]`), no
`config_id` on the request body, and no `.catch` (rejections propagate). -/
def libLogBulkOp (V : VerifyFns) (ctx : ReqCtx) (cfg : Config) (st : Option String)
    (events : List Json) (opts : LogOptions)
    (net : Except SvcError (PangeaResponse LogBulkResponse)) : LibBulkCall :=
  let logEvents := events.map (fun e => getLogEvent ctx cfg e opts)
  let data : LogBulkRequest := { events := logEvents, verbose := opts.verbose }
  let opts' := { opts with verify := false }
  match net with
  | .error e =>
    { payload := data, posts := ["v2/log"], outcome := .error e,
      finalState := st, finalOptions := opts' }
  | .ok resp =>
    match processResults V st opts' resp.result.results with
    | .error (e, stErr) =>
      { payload := data, posts := ["v2/log"], outcome := .error e,
        finalState := stErr, finalOptions := opts' }
    | .ok (results', st') =>
      { payload := data, posts := ["v2/log"],
        outcome := .ok { resp with result := { results := results' } },
        finalState := st', finalOptions := opts' }

/-! ## Search pipeline and root anchoring resolver -/

/-- `Set.add`: JavaScript sets keep one copy of each element, in insertion
order. -/
def addSize (l : List Nat) (n : Nat) : List Nat := if n ∈ l then l else l ++ [n]

/-- The tree-size collection of `processSearchResponse` (part_007 lines
454–465): the overall root size (`root.size ?? 0`), and for every record
with a defined `leaf_index`, `idx + 1` always and `idx` only when
`idx > 0`. -/
def collectTreeSizes (rootSize : Nat) (events : List AuditRecord) : List Nat :=
  events.foldl
    (fun s r =>
      match r.leaf_index with
      | none => s
      | some idx =>
        let s := addSize s (idx + 1)
        if idx > 0 then addSize s idx else s)
    [rootSize]

/-- The size collection as claim C5 states it: "the overall root size
together with, for every returned record with a defined `leaf_index`,
BOTH `index` and `index + 1`" — with no positivity guard on `index`. -/
def claimTreeSizes (rootSize : Nat) (events : List AuditRecord) : List Nat :=
  events.foldl
    (fun s r =>
      match r.leaf_index with
      | none => s
      | some idx => addSize (addSize s (idx + 1)) idx)
    [rootSize]

/-- A tag of an anchoring-index transaction. The service only ever reads
`tree_size` tags, whose values are (decimal renderings of) tree sizes;
they are modelled as `Nat`. -/
structure Tag where
  name : String
  value : Nat

/-- One edge of the anchoring-index GraphQL answer.  `content` is the
parsed JSON of the follow-up per-transaction fetch (that fetch has no
error handling in the source: its failure rejects the whole call, which
is outside the scope of the claims below). -/
structure Edge where
  id : String
  tags : List Tag
  content : Json

/-- Set `publishedRoots[k] = v` (JavaScript object-key assignment:
overwrite if present, append otherwise). -/
def setKey (l : List (Nat × ResolvedRoot)) (k : Nat) (v : ResolvedRoot) :
    List (Nat × ResolvedRoot) :=
  if l.any (fun p => p.1 == k) then l.map (fun p => if p.1 == k then (k, v) else p)
  else l ++ [(k, v)]

/-- First loop of `getArweavePublishedRoots` (part_007 lines 539–561):
key each anchored transaction by its first `tree_size` tag, skipping
edges without one. -/
def anchoredPass (edges : List Edge) : List (Nat × ResolvedRoot) :=
  edges.foldl
    (fun pr edge =>
      match (edge.tags.filter (fun t => t.name == "tree_size")).head? with
      | none => pr
      | some tag => setKey pr tag.value { content := edge.content, transactionId := some edge.id })
    []

/-- The tree sizes the anchoring index resolved (the keys produced by
`anchoredPass`). -/
def anchoredSizes (edges : List Edge) : List Nat :=
  edges.filterMap
    (fun edge => ((edge.tags.filter (fun t => t.name == "tree_size")).head?).map (·.value))

/-- The `{...root}` spread of a live server root into a published-roots
entry. -/
def rootToJson (r : Root) : Json :=
  .obj ([("tree_name", Json.str r.tree_name)] ++
        (match r.size with | some n => [("size", Json.num (Int.ofNat n))] | none => []))

/-- Second loop of `getArweavePublishedRoots` (part_007 lines 563–577):
for every requested size that is truthy (`treeSize &&` — so NOT for size
0) and not yet resolved, try the live-root callback; a failed fetch is
caught, logged and skipped. `fetchRoot s = none` models a rejected
callback. -/
def fallbackPass (fetchRoot : Nat → Option Root) (pr : List (Nat × ResolvedRoot)) :
    List Nat → List (Nat × ResolvedRoot)
  | [] => pr
  | size :: rest =>
    let pr' :=
      if size != 0 && !(pr.any (fun p => p.1 == size)) then
        match fetchRoot size with
        | some rt => setKey pr size { content := rootToJson rt, transactionId := none }
        | none => pr
      else pr
    fallbackPass fetchRoot pr' rest

/-- `getArweavePublishedRoots` (part_007 lines 489–580).  `qi` is the
anchoring-index oracle (the GraphQL query plus per-transaction content
fetches), `fetchRoot` the `localRoot` live-root callback with its
`.catch` folded in. -/
def getArweavePublishedRoots (treeName : String) (treeSizes : List Nat)
    (qi : String → List Nat → List Edge) (fetchRoot : Nat → Option Root) :
    List (Nat × ResolvedRoot) :=
  if treeSizes.isEmpty then []
  else fallbackPass fetchRoot (anchoredPass (qi treeName treeSizes)) treeSizes

/-- The resolver as claim C6 states it: "for EVERY requested tree size not
resolved from the anchoring index, it falls back to the live root-query
callback" — with no truthiness guard, so size 0 is also fallback-queried. -/
def claimPublishedRootsFallback (fetchRoot : Nat → Option Root)
    (pr : List (Nat × ResolvedRoot)) : List Nat → List (Nat × ResolvedRoot)
  | [] => pr
  | size :: rest =>
    let pr' :=
      if !(pr.any (fun p => p.1 == size)) then
        match fetchRoot size with
        | some rt => setKey pr size { content := rootToJson rt, transactionId := none }
        | none => pr
      else pr
    claimPublishedRootsFallback fetchRoot pr' rest

/-- The whole resolver as claim C6 states it. -/
def claimPublishedRoots (treeName : String) (treeSizes : List Nat)
    (qi : String → List Nat → List Edge) (fetchRoot : Nat → Option Root) :
    List (Nat × ResolvedRoot) :=
  if treeSizes.isEmpty then []
  else claimPublishedRootsFallback fetchRoot (anchoredPass (qi treeName treeSizes)) treeSizes

/-- `Audit.SearchResponse`'s result object: the records plus the root
material. -/
structure SearchResult where
  events : List AuditRecord
  root : Option Root := none
  unpublished_root : Option Root := none

/-- The hash/signature pass of `processSearchResponse` (part_007 lines
443–448): `verifyHash` (which may throw) then a signature verdict, for
every record in order. -/
def verifyRecords (V : VerifyFns) : List AuditRecord → Except SvcError (List AuditRecord)
  | [] => .ok []
  | r :: rest =>
    match verifyHash V.verifyLogHash r.envelope r.hash with
    | .error e => .error e
    | .ok _ =>
      let r' := { r with signature_verification := some (V.verifySignature r.envelope) }
      match verifyRecords V rest with
      | .error e => .error e
      | .ok rest' => .ok (r' :: rest')

/-- The verdict-attaching pass of `processSearchResponse` (part_007 lines
474–484): membership against the batch root (or the unpublished root for
unpublished records), then consistency against the published-roots
mapping; the consistency checker sees the record with its membership
verdict already attached, as in the source. -/
def attachSearchVerdicts (V : VerifyFns) (root unpub : Option Root)
    (pub : List (Nat × ResolvedRoot)) (recs : List AuditRecord) : List AuditRecord :=
  recs.map fun r =>
    let rm := { r with
      membership_verification :=
        some (V.verifyRecordMembershipProof (if r.published then root else unpub) r) }
    { rm with
      consistency_verification := some (V.verifyRecordConsistencyProof pub rm) }

/-- `processSearchResponse` (part_007 lines 429–487).  `pub` is the value
of the mutable instance field `this.publishedRoots` on entry; the second
component of the result is its value after the call.  Note the source
only reassigns the field when `verifyConsistency` is set AND the response
carries a root — otherwise the stale field is used for the consistency
verdicts. -/
def processSearchResponse (V : VerifyFns) (qi : String → List Nat → List Edge)
    (rootNet : Nat → Option Root) (pub : List (Nat × ResolvedRoot))
    (resp : PangeaResponse SearchResult) (opts : SearchOptions) :
    Except SvcError (PangeaResponse SearchResult × List (Nat × ResolvedRoot)) :=
  if resp.success = some true then
    let step : Except SvcError (List AuditRecord) :=
      if opts.skipEventVerification then .ok resp.result.events
      else verifyRecords V resp.result.events
    match step with
    | .error e => .error e
    | .ok events₁ =>
      if opts.verifyConsistency then
        let pub' :=
          match resp.result.root with
          | some rt =>
            getArweavePublishedRoots rt.tree_name
              (collectTreeSizes (rt.size.getD 0) events₁) qi rootNet
          | none => pub
        let events₂ :=
          attachSearchVerdicts V resp.result.root resp.result.unpublished_root pub' events₁
        .ok ({ resp with result := { resp.result with events := events₂ } }, pub')
      else
        .ok ({ resp with result := { resp.result with events := events₁ } }, pub)
  else .ok (resp, pub)

/-- The search request payload (`Audit.SearchParams`) after merging the
defaults with the caller's `queryOptions`. -/
structure SearchParams where
  query : String
  limit : Nat := 20
  order : String := "desc"
  order_by : String := "received_at"
  config_id : Option String := none
  verbose : Option Bool := none

/-- Caller-supplied `Audit.SearchParamsOptions` (absent fields are not
copied by `Object.assign`). -/
structure SearchParamsOptions where
  limit : Option Nat := none
  order : Option String := none
  order_by : Option String := none
  config_id : Option String := none
  verbose : Option Bool := none

/-- `{query} ← defaults ← queryOptions` (part_007 lines 278–287). -/
def buildSearchParams (cfg : Config) (query : String) (qo : SearchParamsOptions) :
    SearchParams :=
  { query := query,
    limit := qo.limit.getD 20,
    order := qo.order.getD "desc",
    order_by := qo.order_by.getD "received_at",
    config_id := match qo.config_id with | some c => some c | none => cfg.configId,
    verbose := qo.verbose }

/-- Observables of one `search()`/`results()` call: the primary POSTs, the
settled promise, and the final value of the `publishedRoots` field. -/
structure SearchCall where
  posts : List String
  outcome : Except SvcError (PangeaResponse SearchResult)
  finalPub : List (Nat × ResolvedRoot)

/-- `search` (part_007 lines 273–300): build the payload (forcing
`verbose` under `verifyConsistency`), POST once to `v1/search` with no
catch, then share the response processing.  The resolver's own fallback
root queries travel through the `rootNet` oracle. -/
def searchOp (V : VerifyFns) (cfg : Config) (qi : String → List Nat → List Edge)
    (rootNet : Nat → Option Root) (pub : List (Nat × ResolvedRoot))
    (query : String) (qo : SearchParamsOptions) (opts : SearchOptions)
    (net : Except SvcError (PangeaResponse SearchResult)) : SearchParams × SearchCall :=
  let payload := buildSearchParams cfg query qo
  let payload := if opts.verifyConsistency then { payload with verbose := some true } else payload
  match net with
  | .error e => (payload, { posts := ["v1/search"], outcome := .error e, finalPub := pub })
  | .ok resp =>
    match processSearchResponse V qi rootNet pub resp opts with
    | .error e => (payload, { posts := ["v1/search"], outcome := .error e, finalPub := pub })
    | .ok (resp', pub') =>
      (payload, { posts := ["v1/search"], outcome := .ok resp', finalPub := pub' })

/-- `results` (part_007 lines 320–342): reject on a missing `id` before
any POST, otherwise POST once to `v1/results` and share the response
processing. -/
def resultsOp (V : VerifyFns) (qi : String → List Nat → List Edge)
    (rootNet : Nat → Option Root) (pub : List (Nat × ResolvedRoot))
    (id : String) (opts : SearchOptions)
    (net : Except SvcError (PangeaResponse SearchResult)) : SearchCall :=
  if id = "" then { posts := [], outcome := .error .missingId, finalPub := pub }
  else
    match net with
    | .error e => { posts := ["v1/results"], outcome := .error e, finalPub := pub }
    | .ok resp =>
      match processSearchResponse V qi rootNet pub resp opts with
      | .error e => { posts := ["v1/results"], outcome := .error e, finalPub := pub }
      | .ok (resp', pub') => { posts := ["v1/results"], outcome := .ok resp', finalPub := pub' }

/-- `Audit.RootResult`. -/
structure RootResult where
  data : Root

/-- `root` (part_007 lines 393–404): one POST to `v1/root` (with
`tree_size` only when `size > 0`), no catch. -/
def rootOp (size : Nat) (net : Except SvcError (PangeaResponse RootResult)) :
    Option Nat × List String × Except SvcError (PangeaResponse RootResult) :=
  (if size > 0 then some size else none, ["v1/root"], net)

/-! ## Claim theorems -/

/-- Inversion: `verifyHash` errors exactly on a present, mismatching pair,
and the error is the fatal integrity error carrying the hash and the
serialized envelope. -/
theorem verifyHash_error_iff (vlh : Json → String → Bool) (env : Option Json)
    (hs : Option String) (fe : SvcError) :
    verifyHash vlh env hs = .error fe ↔
      ∃ e h, env = some e ∧ hs = some h ∧ vlh e h = false ∧ fe = hashErr h e := by
  cases env with
  | none => simp [verifyHash]
  | some e =>
    cases hs with
    | none => simp [verifyHash]
    | some h =>
      by_cases hv : vlh e h
      · simp [verifyHash, hv]
      · simp only [Bool.not_eq_true] at hv
        have hvh : verifyHash vlh (some e) (some h) = .error (hashErr h e) := by
          simp [verifyHash, hv]
        rw [hvh]
        constructor
        · intro h'
          injection h' with h''
          exact ⟨e, h, rfl, rfl, hv, h''.symm⟩
        · rintro ⟨e', h', he, hh, hf, rfl⟩
          cases he
          cases hh
          rfl

/-- C1: hash verification is a no-op when the envelope or the supplied
hash is absent; when both are present and the recomputed check fails it
raises, immediately, the fatal error carrying the mismatched hash and the
JSON-serialized envelope; the record processing shared by `log`/`logBulk`
(`processLogResponse`) and by `search`/`results` (`verifyRecords`, inside
`processSearchResponse`) surfaces exactly that error for every record —
unless `skipEventVerification` is set, in which case processing never
raises. -/
theorem hash_verification_noop_and_fatal :
    (∀ (vlh : Json → String → Bool) (h : Option String),
      verifyHash vlh none h = .ok ()) ∧
    (∀ (vlh : Json → String → Bool) (e : Json),
      verifyHash vlh (some e) none = .ok ()) ∧
    (∀ (vlh : Json → String → Bool) (e : Json) (h : String),
      vlh e h = false → verifyHash vlh (some e) (some h) = .error (hashErr h e)) ∧
    (∀ (V : VerifyFns) (st : Option String) (r : LogResponse) (opts : LogOptions)
      (fe : SvcError),
      opts.skipEventVerification = false →
      verifyHash V.verifyLogHash r.envelope r.hash = .error fe →
      processLogResponse V st r opts = .error fe) ∧
    (∀ (V : VerifyFns) (st : Option String) (r : LogResponse) (opts : LogOptions),
      opts.skipEventVerification = true →
      ∃ res, processLogResponse V st r opts = .ok res) ∧
    (∀ (V : VerifyFns) (qi : String → List Nat → List Edge) (rootNet : Nat → Option Root)
      (pub : List (Nat × ResolvedRoot)) (resp : PangeaResponse SearchResult)
      (opts : SearchOptions) (fe : SvcError),
      opts.skipEventVerification = false →
      resp.success = some true →
      verifyRecords V resp.result.events = .error fe →
      processSearchResponse V qi rootNet pub resp opts = .error fe) ∧
    (∀ (V : VerifyFns) (recs : List AuditRecord),
      (∃ r ∈ recs, ∃ e h, r.envelope = some e ∧ r.hash = some h ∧ V.verifyLogHash e h = false) →
      ∃ e h, (∃ r ∈ recs, r.envelope = some e ∧ r.hash = some h ∧ V.verifyLogHash e h = false) ∧
        verifyRecords V recs = .error (hashErr h e)) := by
  refine ⟨fun vlh h => rfl, fun vlh e => rfl, ?_, ?_, ?_, ?_, ?_⟩
  · intro vlh e h hv
    simp [verifyHash, hv]
  · intro V st r opts fe hskip herr
    simp [processLogResponse, hskip, herr]
  · intro V st r opts hskip
    simp only [processLogResponse, hskip, if_true]
    exact ⟨_, rfl⟩
  · intro V qi rootNet pub resp opts fe hskip hsucc herr
    simp [processSearchResponse, hsucc, hskip, herr]
  · intro V recs
    induction recs with
    | nil => rintro ⟨r, hmem, _⟩; simp at hmem
    | cons r rest ih =>
      rintro ⟨r₀, hmem, e0, h0, he, hh, hf⟩
      cases hv : verifyHash V.verifyLogHash r.envelope r.hash with
      | error fe =>
        obtain ⟨e, h, he', hh', hf', rfl⟩ := (verifyHash_error_iff _ _ _ _).mp hv
        exact ⟨e, h, ⟨r, List.mem_cons_self _ _, he', hh', hf'⟩,
          by simp only [verifyRecords, hv]⟩
      | ok _ =>
        rcases List.mem_cons.mp hmem with rfl | hmem'
        · rw [he, hh] at hv
          simp [verifyHash, hf] at hv
        · obtain ⟨e, h, ⟨r', hm', hrest⟩, herr⟩ := ih ⟨r₀, hmem', e0, h0, he, hh, hf⟩
          exact ⟨e, h, ⟨r', List.mem_cons_of_mem _ hm', hrest⟩,
            by simp only [verifyRecords, hv, herr]⟩

/-- Witness for C1: a concrete absent-hash no-op, and a concrete mismatch
raising the fatal error, both at the `verifyHash` level and through
`processLogResponse`. -/
theorem hash_verification_noop_and_fatal_witness :
    verifyHash (fun _ _ => false) none (some "h") = .ok () ∧
    verifyHash (fun _ _ => false) (some .null) (some "h") = .error (hashErr "h" .null) ∧
    processLogResponse
        ⟨fun _ _ => false, fun _ => true, fun _ _ => true, fun _ _ _ => true,
          fun _ _ => true, fun _ _ => true⟩
        none { envelope := some .null, hash := some "h" } {} = .error (hashErr "h" .null) :=
  ⟨hash_verification_noop_and_fatal.1 _ _,
   hash_verification_noop_and_fatal.2.2.1 _ _ _ rfl,
   hash_verification_noop_and_fatal.2.2.2.1 _ _ _ _ _ rfl
     (hash_verification_noop_and_fatal.2.2.1 _ _ _ rfl)⟩

/-- On success, `processLogResponse` leaves the cached root unchanged
unless the response carried a defined `unpublished_root`, in which case it
becomes exactly that root. -/
theorem processLogResponse_state (V : VerifyFns) (st : Option String) (r : LogResponse)
    (opts : LogOptions) (res : LogResponse × Option String)
    (hok : processLogResponse V st r opts = .ok res) :
    res.2 = if r.unpublished_root.isSome then r.unpublished_root else st := by
  simp only [processLogResponse] at hok
  split at hok
  · cases hok
  · injection hok with h
    rw [← h]

/-- The payload submitted by `log` does not depend on the network outcome. -/
theorem logOp_payload (V : VerifyFns) (ctx : ReqCtx) (cfg : Config) (st : Option String)
    (e : Json) (opts : LogOptions) (cb : SvcError → Option SvcError)
    (net : Except SvcError (PangeaResponse LogResponse)) :
    (logOp V ctx cfg st e opts cb net).payload =
      setRequestFields st (getLogEvent ctx cfg e opts) opts := by
  cases net with
  | error e' => rfl
  | ok resp =>
    simp only [logOp]
    cases hpr : processLogResponse V st resp.result opts with
    | error e' => rfl
    | ok res => obtain ⟨r', st'⟩ := res; rfl

/-- Under `verify`, the submitted payload chains `prev_root` to the cached
root when one is known. -/
theorem setRequestFields_prev_root (st : Option String) (d : LogData) (opts : LogOptions)
    (hv : opts.verify = true) (u : String) (hst : st = some u) :
    (setRequestFields st d opts).prev_root = some u := by
  subst hst
  by_cases hb : opts.verbose <;> simp [setRequestFields, hv, hb]

/-- C2: `prevUnpublishedRootHash` is overwritten only by a defined
`unpublished_root` (so it is never reset to `undefined` and never rolled
back), and two sequential `log()` calls with `verify=true` chain: the
second call's submitted payload carries `prev_root` equal to the
`unpublished_root` returned by the first call. -/
theorem prev_root_monotonic_and_chained :
    (∀ (V : VerifyFns) (st : Option String) (r : LogResponse) (opts : LogOptions)
      (res : LogResponse × Option String),
      processLogResponse V st r opts = .ok res →
      res.2 = (if r.unpublished_root.isSome then r.unpublished_root else st) ∧
      (st ≠ none → res.2 ≠ none)) ∧
    (∀ (V : VerifyFns) (ctx : ReqCtx) (cfg : Config) (st : Option String)
      (e₁ e₂ : Json) (opts : LogOptions) (cb : SvcError → Option SvcError)
      (resp₁ : PangeaResponse LogResponse)
      (net₂ : Except SvcError (PangeaResponse LogResponse))
      (r₁ : PangeaResponse LogResponse) (u : String),
      opts.verify = true →
      resp₁.result.unpublished_root = some u →
      (logOp V ctx cfg st e₁ opts cb (.ok resp₁)).outcome = .ok (some r₁) →
      (logOp V ctx cfg (logOp V ctx cfg st e₁ opts cb (.ok resp₁)).finalState
          e₂ opts cb net₂).payload.prev_root = some u) := by
  constructor
  · intro V st r opts res hok
    refine ⟨processLogResponse_state V st r opts res hok, fun hst => ?_⟩
    rw [processLogResponse_state V st r opts res hok]
    cases hr : r.unpublished_root with
    | none => simpa [hr] using hst
    | some v => simp [hr]
  · intro V ctx cfg st e₁ e₂ opts cb resp₁ net₂ r₁ u hverify hu houtcome
    have hfs : (logOp V ctx cfg st e₁ opts cb (.ok resp₁)).finalState = some u := by
      simp only [logOp] at houtcome ⊢
      cases hpr : processLogResponse V st resp₁.result opts with
      | error e =>
        exfalso
        rw [hpr] at houtcome
        simp only [catchWith] at houtcome
        cases hcb : cb e <;> rw [hcb] at houtcome <;> simp at houtcome
      | ok res =>
        obtain ⟨r', st'⟩ := res
        have := processLogResponse_state V st resp₁.result opts (r', st') hpr
        simpa [hu] using this
    rw [logOp_payload]
    exact setRequestFields_prev_root _ _ _ hverify u hfs

/-- Witness for C2: a first call returning `unpublished_root = "u"` makes
the second call submit `prev_root = "u"`. -/
theorem prev_root_monotonic_and_chained_witness :
    (logOp ⟨fun _ _ => true, fun _ => true, fun _ _ => true, fun _ _ _ => true,
        fun _ _ => true, fun _ _ => true⟩ {} {}
      (logOp ⟨fun _ _ => true, fun _ => true, fun _ _ => true, fun _ _ _ => true,
          fun _ _ => true, fun _ _ => true⟩ {} {} none (.obj []) { verify := true }
        defaultCallback
        (.ok { success := some true, result := { unpublished_root := some "u" } })).finalState
      (.obj []) { verify := true } defaultCallback
      (.error (.transport "down"))).payload.prev_root = some "u" :=
  prev_root_monotonic_and_chained.2 _ _ _ none (.obj []) (.obj []) { verify := true }
    defaultCallback { success := some true, result := { unpublished_root := some "u" } }
    (.error (.transport "down"))
    { success := some true,
      result := { unpublished_root := some "u", signature_verification := some true,
                  membership_verification := some true,
                  consistency_verification := some true } }
    "u" rfl rfl rfl

/-- With `verify` off, `processLogResponse` leaves the membership and
consistency verdict fields of the result untouched. -/
theorem processLogResponse_verify_false (V : VerifyFns) (st : Option String)
    (r : LogResponse) (opts : LogOptions) (res : LogResponse × Option String)
    (hv : opts.verify = false) (hok : processLogResponse V st r opts = .ok res) :
    res.1.membership_verification = r.membership_verification ∧
    res.1.consistency_verification = r.consistency_verification := by
  simp only [processLogResponse, hv, Bool.false_eq_true, if_false] at hok
  split at hok
  · cases hok
  · rename_i r1 heq
    injection hok with h
    rw [← h]
    have hr1 : r1.membership_verification = r.membership_verification ∧
        r1.consistency_verification = r.consistency_verification := by
      split at heq
      · injection heq with h1
        rw [← h1]
        exact ⟨rfl, rfl⟩
      · split at heq
        · cases heq
        · injection heq with h1
          rw [← h1]
          exact ⟨rfl, rfl⟩
    exact hr1

/-- With `verify` on, `processLogResponse` attaches both verdicts. -/
theorem processLogResponse_verify_true (V : VerifyFns) (st : Option String)
    (r : LogResponse) (opts : LogOptions) (res : LogResponse × Option String)
    (hv : opts.verify = true) (hok : processLogResponse V st r opts = .ok res) :
    res.1.membership_verification.isSome ∧ res.1.consistency_verification.isSome := by
  simp only [processLogResponse, hv, if_true] at hok
  split at hok
  · cases hok
  · injection hok with h
    rw [← h]
    exact ⟨rfl, rfl⟩

/-- `Forall₂` gives a left partner for every right member. -/
theorem forall₂_mem_right {α β : Type} {R : α → β → Prop} :
    ∀ {l : List α} {l' : List β}, List.Forall₂ R l l' → ∀ b ∈ l', ∃ a ∈ l, R a b := by
  intro l l' h
  induction h with
  | nil => intro b hb; simp at hb
  | cons hR _ ih =>
    intro b hb
    rcases List.mem_cons.mp hb with rfl | hb'
    · exact ⟨_, List.mem_cons_self _ _, hR⟩
    · obtain ⟨a, ha, hab⟩ := ih b hb'
      exact ⟨a, List.mem_cons_of_mem _ ha, hab⟩

/-- The bulk result loop with `verify` off relates inputs and outputs
pointwise, never touching the membership/consistency fields. -/
theorem processResults_verify_false (V : VerifyFns) (opts : LogOptions)
    (hv : opts.verify = false) :
    ∀ (rs : List LogResponse) (st : Option String) (rs' : List LogResponse)
      (st' : Option String),
      processResults V st opts rs = .ok (rs', st') →
      List.Forall₂
        (fun r r' => r'.membership_verification = r.membership_verification ∧
          r'.consistency_verification = r.consistency_verification) rs rs' := by
  intro rs
  induction rs with
  | nil =>
    intro st rs' st' hok
    simp only [processResults] at hok
    injection hok with h
    injection h with h1 h2
    rw [← h1]
    exact List.Forall₂.nil
  | cons r rest ih =>
    intro st rs' st' hok
    simp only [processResults] at hok
    split at hok
    · cases hok
    · rename_i r1 st1 heq
      split at hok
      · cases hok
      · rename_i rest' st2 heq2
        injection hok with h
        injection h with h1 h2
        rw [← h1]
        exact List.Forall₂.cons
          (processLogResponse_verify_false V st r opts (r1, st1) hv heq)
          (ih st1 rest' st2 heq2)

/-- C3: bulk submissions never verify — `logBulk` forces `verify` off, so
its per-result processing attaches no membership or consistency verdict to
any result (whatever the caller passed); with `verify` on, the single-log
processing does attach both verdicts, so only `log()` can request them. -/
theorem bulk_submission_never_verifies :
    (∀ (V : VerifyFns) (st : Option String) (r : LogResponse) (opts : LogOptions)
      (res : LogResponse × Option String),
      opts.verify = false →
      processLogResponse V st r opts = .ok res →
      res.1.membership_verification = r.membership_verification ∧
      res.1.consistency_verification = r.consistency_verification) ∧
    (∀ (V : VerifyFns) (ctx : ReqCtx) (cfg : Config) (st : Option String)
      (events : List Json) (opts : LogOptions) (cb : SvcError → Option SvcError)
      (resp : PangeaResponse LogBulkResponse) (out : PangeaResponse LogBulkResponse),
      (∀ r ∈ resp.result.results,
        r.membership_verification = none ∧ r.consistency_verification = none) →
      (logBulkOp V ctx cfg st events opts cb (.ok resp)).outcome = .ok (some out) →
      ∀ r' ∈ out.result.results,
        r'.membership_verification = none ∧ r'.consistency_verification = none) ∧
    (∀ (V : VerifyFns) (st : Option String) (r : LogResponse) (opts : LogOptions)
      (res : LogResponse × Option String),
      opts.verify = true →
      processLogResponse V st r opts = .ok res →
      res.1.membership_verification.isSome ∧ res.1.consistency_verification.isSome) := by
  refine ⟨processLogResponse_verify_false, ?_, processLogResponse_verify_true⟩
  intro V ctx cfg st events opts cb resp out hnone hout r' hr'
  by_cases hev : events.isEmpty
  · simp only [logBulkOp, hev, if_true] at hout
    injection hout with h
    injection h with h1
    rw [← h1] at hr'
    simp at hr'
  · simp only [logBulkOp, hev, Bool.false_eq_true, if_false] at hout
    cases hpr : processResults V st { opts with verify := false } resp.result.results with
    | error es =>
      obtain ⟨e, stE⟩ := es
      rw [hpr] at hout
      simp only [catchWith] at hout
      cases hcb : cb e <;> rw [hcb] at hout <;> simp at hout
    | ok resOk =>
      obtain ⟨results', st'⟩ := resOk
      rw [hpr] at hout
      injection hout with h
      injection h with h1
      rw [← h1] at hr'
      have hforall := processResults_verify_false V { opts with verify := false } rfl
        resp.result.results st results' st' hpr
      obtain ⟨r0, hr0, hfields⟩ := forall₂_mem_right hforall r' hr'
      obtain ⟨hm, hc⟩ := hnone r0 hr0
      exact ⟨hfields.1.trans hm, hfields.2.trans hc⟩

/-- Witness for C3: a one-event bulk call with `verify:true` whose
processed result still carries no membership/consistency verdicts. -/
theorem bulk_submission_never_verifies_witness :
    ({ unpublished_root := some "u",
       signature_verification := some true } : LogResponse).membership_verification = none ∧
    ({ unpublished_root := some "u",
       signature_verification := some true } : LogResponse).consistency_verification = none :=
  bulk_submission_never_verifies.2.1
    ⟨fun _ _ => true, fun _ => true, fun _ _ => true, fun _ _ _ => true,
      fun _ _ => true, fun _ _ => true⟩
    {} {} none [.obj []] { verify := true } defaultCallback
    { success := some true, result := { results := [{ unpublished_root := some "u" }] } }
    { success := some true,
      result :=
        { results :=
            [{ unpublished_root := some "u", signature_verification := some true }] } }
    (by intro r hr; simp at hr; rw [hr]; exact ⟨rfl, rfl⟩)
    rfl
    { unpublished_root := some "u", signature_verification := some true }
    (List.mem_singleton.mpr rfl)

/-- C9 (counterexample): the library variant's `logBulk`
(audit-logs.service.ts lines 195–220) has NO empty-list short-circuit: on
an empty event list it still issues the `v2/log` POST, refuting "for every
options value, `logBulk` called with an empty event list … issues zero
network calls" for that implementation. -/
theorem logbulk_empty_counterexample :
    (libLogBulkOp
        ⟨fun _ _ => true, fun _ => true, fun _ _ => true, fun _ _ _ => true,
          fun _ _ => true, fun _ _ => true⟩
        {} {} none [] {}
        (.ok { success := some true, result := { results := [] } })).posts = ["v2/log"] ∧
    (libLogBulkOp
        ⟨fun _ _ => true, fun _ => true, fun _ _ => true, fun _ _ _ => true,
          fun _ _ => true, fun _ _ => true⟩
        {} {} none [] {}
        (.ok { success := some true, result := { results := [] } })).posts ≠ [] := by
  constructor
  · rfl
  · intro h
    cases h

/-- C9 (amended): part_007's `logBulk` does short-circuit an empty event
list — it returns `{result:{results:[]}}` at once, issues zero POSTs,
and leaves both the cached root and the options object untouched; the
library variant instead always issues its single `v2/log` POST. -/
theorem logbulk_empty_short_circuit :
    (∀ (V : VerifyFns) (ctx : ReqCtx) (cfg : Config) (st : Option String)
      (opts : LogOptions) (cb : SvcError → Option SvcError)
      (net : Except SvcError (PangeaResponse LogBulkResponse)),
      logBulkOp V ctx cfg st [] opts cb net =
        { payload := none, posts := [],
          outcome := .ok (some { success := none, result := { results := [] } }),
          finalState := st, finalOptions := opts }) ∧
    (∀ (V : VerifyFns) (ctx : ReqCtx) (cfg : Config) (st : Option String)
      (events : List Json) (opts : LogOptions)
      (net : Except SvcError (PangeaResponse LogBulkResponse)),
      (libLogBulkOp V ctx cfg st events opts net).posts = ["v2/log"]) := by
  constructor
  · intro V ctx cfg st opts cb net
    rfl
  · intro V ctx cfg st events opts net
    cases net with
    | error e => rfl
    | ok resp =>
      simp only [libLogBulkOp]
      split <;> rfl

/-- C10: `logBulk` overwrites the caller's own `options` object:
`options.verify` is `false` after every part_007 call with a non-empty
event list (the mutation happens before the POST, so it persists on every
path that reaches response processing), and after every library-variant
call. -/
theorem logbulk_mutates_caller_options :
    (∀ (V : VerifyFns) (ctx : ReqCtx) (cfg : Config) (st : Option String)
      (events : List Json) (opts : LogOptions) (cb : SvcError → Option SvcError)
      (net : Except SvcError (PangeaResponse LogBulkResponse)),
      events ≠ [] →
      (logBulkOp V ctx cfg st events opts cb net).finalOptions.verify = false) ∧
    (∀ (V : VerifyFns) (ctx : ReqCtx) (cfg : Config) (st : Option String)
      (events : List Json) (opts : LogOptions)
      (net : Except SvcError (PangeaResponse LogBulkResponse)),
      (libLogBulkOp V ctx cfg st events opts net).finalOptions.verify = false) := by
  constructor
  · intro V ctx cfg st events opts cb net hne
    have hev : events.isEmpty = false := by
      cases events with
      | nil => exact absurd rfl hne
      | cons e rest => rfl
    simp only [logBulkOp, hev, Bool.false_eq_true, if_false]
    cases net with
    | error e => rfl
    | ok resp =>
      cases hpr : processResults V st { opts with verify := false } resp.result.results with
      | error es => obtain ⟨e, stE⟩ := es; simp only [hpr]
      | ok res => obtain ⟨rs, st'⟩ := res; simp only [hpr]
  · intro V ctx cfg st events opts net
    cases net with
    | error e => rfl
    | ok resp =>
      simp only [libLogBulkOp]
      cases hpr : processResults V st { opts with verify := false } resp.result.results with
      | error es => obtain ⟨e, stE⟩ := es; simp only [hpr]
      | ok res => obtain ⟨rs, st'⟩ := res; simp only [hpr]

/-- Witness for C10: a concrete one-event bulk call entered with
`verify:true` leaves the caller's options with `verify = false`. -/
theorem logbulk_mutates_caller_options_witness :
    (logBulkOp
        ⟨fun _ _ => true, fun _ => true, fun _ _ => true, fun _ _ _ => true,
          fun _ _ => true, fun _ _ => true⟩
        {} {} none [.obj []] { verify := true } defaultCallback
        (.error (.transport "down"))).finalOptions.verify = false :=
  logbulk_mutates_caller_options.1 _ _ _ none [.obj []] { verify := true }
    defaultCallback (.error (.transport "down")) (by simp)

/-- C7 (counterexample): a transport failure of the `v1/log` POST is NOT
propagated by part_007's `log` — the trailing `.catch(callback)` feeds it
to the (default no-op) callback and the promise then RESOLVES with
`undefined` (`.ok none`), so "if the HTTP POST issued by log() rejects,
the promise returned by log() rejects" is false. -/
theorem transport_failure_counterexample :
    (logOp
        ⟨fun _ _ => true, fun _ => true, fun _ _ => true, fun _ _ _ => true,
          fun _ _ => true, fun _ _ => true⟩
        {} {} none (.obj []) {} defaultCallback
        (.error (.transport "down"))).outcome = .ok none ∧
    (logOp
        ⟨fun _ _ => true, fun _ => true, fun _ _ => true, fun _ _ _ => true,
          fun _ _ => true, fun _ _ => true⟩
        {} {} none (.obj []) {} defaultCallback
        (.error (.transport "down"))).outcome ≠ .error (.transport "down") := by
  constructor
  · rfl
  · intro h
    rw [show (logOp
        ⟨fun _ _ => true, fun _ => true, fun _ _ => true, fun _ _ _ => true,
          fun _ _ => true, fun _ _ => true⟩
        {} {} none (.obj []) {} defaultCallback
        (.error (.transport "down"))).outcome = .ok none from rfl] at h
    cases h

/-- C7 (amended): transport failures on `search`, `results` and `root`
are propagated unchanged as rejections, each after exactly one POST to
the corresponding endpoint and with no retry; `log` and `logBulk`
(part_007) instead hand the error to the caller-supplied callback — with
the default no-op callback the promise resolves with `undefined` — while
the library variant's `logBulk` does propagate; no operation ever POSTs
its primary endpoint more than once. -/
theorem transport_failure_propagation :
    (∀ (V : VerifyFns) (cfg : Config) (qi : String → List Nat → List Edge)
      (rootNet : Nat → Option Root) (pub : List (Nat × ResolvedRoot))
      (query : String) (qo : SearchParamsOptions) (opts : SearchOptions) (e : SvcError),
      (searchOp V cfg qi rootNet pub query qo opts (.error e)).2.outcome = .error e ∧
      (searchOp V cfg qi rootNet pub query qo opts (.error e)).2.posts = ["v1/search"]) ∧
    (∀ (V : VerifyFns) (qi : String → List Nat → List Edge) (rootNet : Nat → Option Root)
      (pub : List (Nat × ResolvedRoot)) (id : String) (opts : SearchOptions) (e : SvcError),
      id ≠ "" →
      (resultsOp V qi rootNet pub id opts (.error e)).outcome = .error e ∧
      (resultsOp V qi rootNet pub id opts (.error e)).posts = ["v1/results"]) ∧
    (∀ (size : Nat) (e : SvcError),
      (rootOp size (.error e)).2.2 = .error e ∧ (rootOp size (.error e)).2.1 = ["v1/root"]) ∧
    (∀ (V : VerifyFns) (ctx : ReqCtx) (cfg : Config) (st : Option String) (ev : Json)
      (opts : LogOptions) (cb : SvcError → Option SvcError) (e : SvcError),
      (logOp V ctx cfg st ev opts cb (.error e)).outcome = catchWith cb e ∧
      (logOp V ctx cfg st ev opts cb (.error e)).posts = ["v1/log"] ∧
      (logOp V ctx cfg st ev opts defaultCallback (.error e)).outcome = .ok none) ∧
    (∀ (V : VerifyFns) (ctx : ReqCtx) (cfg : Config) (st : Option String)
      (events : List Json) (opts : LogOptions) (cb : SvcError → Option SvcError)
      (e : SvcError),
      events ≠ [] →
      (logBulkOp V ctx cfg st events opts cb (.error e)).outcome = catchWith cb e ∧
      (logBulkOp V ctx cfg st events opts cb (.error e)).posts = ["v2/log"]) ∧
    (∀ (V : VerifyFns) (ctx : ReqCtx) (cfg : Config) (st : Option String)
      (events : List Json) (opts : LogOptions) (e : SvcError),
      (libLogBulkOp V ctx cfg st events opts (.error e)).outcome = .error e) := by
  refine ⟨fun V cfg qi rootNet pub query qo opts e => ⟨rfl, rfl⟩, ?_,
    fun size e => ⟨rfl, rfl⟩, fun V ctx cfg st ev opts cb e => ⟨rfl, rfl, rfl⟩, ?_,
    fun V ctx cfg st events opts e => rfl⟩
  · intro V qi rootNet pub id opts e hid
    simp only [resultsOp, if_neg hid]
    refine ⟨?_, ?_⟩ <;> first | rfl | trivial
  · intro V ctx cfg st events opts cb e hne
    have hev : events.isEmpty = false := by
      cases events with
      | nil => exact absurd rfl hne
      | cons x rest => rfl
    simp only [logBulkOp, hev, Bool.false_eq_true, if_false]
    refine ⟨?_, ?_⟩ <;> first | rfl | trivial

/-- Witness for C7 (amended): a concrete failing `results` call (with a
non-empty id) rejects with the transport error after its single POST, and
a concrete failing one-event `logBulk` resolves through its default
callback. -/
theorem transport_failure_propagation_witness :
    ((resultsOp
        ⟨fun _ _ => true, fun _ => true, fun _ _ => true, fun _ _ _ => true,
          fun _ _ => true, fun _ _ => true⟩
        (fun _ _ => []) (fun _ => none) [] "srch_1" {}
        (.error (.transport "down"))).outcome = .error (.transport "down") ∧
      (resultsOp
        ⟨fun _ _ => true, fun _ => true, fun _ _ => true, fun _ _ _ => true,
          fun _ _ => true, fun _ _ => true⟩
        (fun _ _ => []) (fun _ => none) [] "srch_1" {}
        (.error (.transport "down"))).posts = ["v1/results"]) ∧
    ((logBulkOp
        ⟨fun _ _ => true, fun _ => true, fun _ _ => true, fun _ _ _ => true,
          fun _ _ => true, fun _ _ => true⟩
        {} {} none [.obj []] {} defaultCallback
        (.error (.transport "down"))).outcome = catchWith defaultCallback (.transport "down") ∧
      (logBulkOp
        ⟨fun _ _ => true, fun _ => true, fun _ _ => true, fun _ _ _ => true,
          fun _ _ => true, fun _ _ => true⟩
        {} {} none [.obj []] {} defaultCallback
        (.error (.transport "down"))).posts = ["v2/log"]) :=
  ⟨transport_failure_propagation.2.1 _ _ _ _ "srch_1" {} (.transport "down") (by decide),
   transport_failure_propagation.2.2.2.2.1 _ _ _ none [.obj []] {} defaultCallback
     (.transport "down") (by simp)⟩

theorem mem_addSize {l : List Nat} {n x : Nat} : x ∈ addSize l n ↔ x ∈ l ∨ x = n := by
  unfold addSize
  split
  · rename_i hn
    constructor
    · exact Or.inl
    · rintro (h | rfl)
      · exact h
      · exact hn
  · simp [List.mem_append]

theorem mem_collect_aux (events : List AuditRecord) :
    ∀ (acc : List Nat) (x : Nat),
      x ∈ events.foldl
        (fun s r =>
          match r.leaf_index with
          | none => s
          | some idx =>
            let s := addSize s (idx + 1)
            if idx > 0 then addSize s idx else s) acc ↔
      x ∈ acc ∨ ∃ r ∈ events, ∃ idx, r.leaf_index = some idx ∧
        (x = idx + 1 ∨ (x = idx ∧ 0 < idx)) := by
  induction events with
  | nil => intro acc x; simp
  | cons r rest ih =>
    intro acc x
    rw [List.foldl_cons, ih]
    cases hleaf : r.leaf_index with
    | none =>
      simp only [hleaf]
      constructor
      · rintro (h | ⟨r', hr', hrest⟩)
        · exact Or.inl h
        · exact Or.inr ⟨r', List.mem_cons_of_mem _ hr', hrest⟩
      · rintro (h | ⟨r', hr', idx, hidx, hx⟩)
        · exact Or.inl h
        · rcases List.mem_cons.mp hr' with rfl | hr''
          · rw [hleaf] at hidx; cases hidx
          · exact Or.inr ⟨r', hr'', idx, hidx, hx⟩
    | some idx =>
      have hstep : ∀ y : Nat,
          (y ∈ (if idx > 0 then addSize (addSize acc (idx + 1)) idx
                else addSize acc (idx + 1))) ↔
          (y ∈ acc ∨ (y = idx + 1 ∨ (y = idx ∧ 0 < idx))) := by
        intro y
        by_cases hpos : idx > 0
        · simp only [if_pos hpos, mem_addSize]
          constructor
          · rintro ((h | h) | h)
            · exact Or.inl h
            · exact Or.inr (Or.inl h)
            · exact Or.inr (Or.inr ⟨h, hpos⟩)
          · rintro (h | (h | ⟨h, _⟩))
            · exact Or.inl (Or.inl h)
            · exact Or.inl (Or.inr h)
            · exact Or.inr h
        · simp only [if_neg hpos, mem_addSize]
          constructor
          · rintro (h | h)
            · exact Or.inl h
            · exact Or.inr (Or.inl h)
          · rintro (h | (h | ⟨rfl, hc⟩))
            · exact Or.inl h
            · exact Or.inr h
            · exact absurd hc hpos
      simp only [hleaf, hstep]
      constructor
      · rintro ((h | h) | ⟨r', hr', hrest⟩)
        · exact Or.inl h
        · exact Or.inr ⟨r, List.mem_cons_self _ _, idx, hleaf, h⟩
        · exact Or.inr ⟨r', List.mem_cons_of_mem _ hr', hrest⟩
      · rintro (h | ⟨r', hr', idx', hidx', hx'⟩)
        · exact Or.inl (Or.inl h)
        · rcases List.mem_cons.mp hr' with rfl | hr''
          · rw [hleaf] at hidx'
            injection hidx' with h''
            subst h''
            exact Or.inl (Or.inr hx')
          · exact Or.inr ⟨r', hr'', idx', hidx', hx'⟩

/-- C5 (counterexample): for a record with `leaf_index = 0` the code adds
only `idx + 1 = 1` (the `if (idx > 0)` guard skips `idx` itself), so the
collected set differs from the claim's "both `index` and `index + 1` for
every record with a defined `leaf_index`": here `0` is in the claimed set
but not in the computed one. -/
theorem tree_sizes_counterexample :
    0 ∈ claimTreeSizes 3 [{ leaf_index := some 0 }] ∧
    0 ∉ collectTreeSizes 3 [{ leaf_index := some 0 }] := by
  constructor
  · decide
  · decide

/-- C5 (amended): the set of tree sizes handed to the root anchoring
resolver is exactly: the overall root size, and for every returned record
with a defined `leaf_index`, `index + 1` always, plus `index` itself only
when `index > 0`.  (In particular, for `leaf_index = 4` the sizes include
4 and 5 together with the batch's overall root size.) -/
theorem tree_sizes_characterization :
    ∀ (rootSize : Nat) (events : List AuditRecord) (x : Nat),
      x ∈ collectTreeSizes rootSize events ↔
        x = rootSize ∨ ∃ r ∈ events, ∃ idx, r.leaf_index = some idx ∧
          (x = idx + 1 ∨ (x = idx ∧ 0 < idx)) := by
  intro rootSize events x
  unfold collectTreeSizes
  rw [mem_collect_aux]
  simp

theorem keyMem_setKey {l : List (Nat × ResolvedRoot)} {k : Nat} {v : ResolvedRoot} {x : Nat} :
    (∃ w, (x, w) ∈ setKey l k v) ↔ (∃ w, (x, w) ∈ l) ∨ x = k := by
  unfold setKey
  split
  · rename_i hk
    constructor
    · rintro ⟨w, hw⟩
      obtain ⟨p, hp, hpe⟩ := List.mem_map.mp hw
      by_cases hpk : p.1 == k
      · rw [if_pos hpk] at hpe
        have : x = k := by
          have := congrArg Prod.fst hpe
          simpa using this.symm
        exact Or.inr this
      · rw [if_neg hpk] at hpe
        rw [hpe] at hp
        exact Or.inl ⟨w, hp⟩
    · rintro (⟨w, hw⟩ | rfl)
      · by_cases hxk : x = k
        · subst hxk
          obtain ⟨p, hp, hpk⟩ := List.any_eq_true.mp hk
          refine ⟨v, List.mem_map.mpr ⟨p, hp, ?_⟩⟩
          rw [if_pos hpk]
        · refine ⟨w, List.mem_map.mpr ⟨(x, w), hw, ?_⟩⟩
          rw [if_neg (by simpa using hxk)]
      · obtain ⟨p, hp, hpk⟩ := List.any_eq_true.mp hk
        refine ⟨v, List.mem_map.mpr ⟨p, hp, ?_⟩⟩
        rw [if_pos hpk]
  · constructor
    · rintro ⟨w, hw⟩
      rcases List.mem_append.mp hw with hmem | hmem
      · exact Or.inl ⟨w, hmem⟩
      · rcases List.mem_singleton.mp hmem with h
        exact Or.inr (congrArg Prod.fst h)
    · rintro (⟨w, hw⟩ | rfl)
      · exact ⟨w, List.mem_append.mpr (Or.inl hw)⟩
      · exact ⟨v, List.mem_append.mpr (Or.inr (List.mem_singleton.mpr rfl))⟩

/-- A key is absent after the fallback loop whenever it was absent before
it and its own fallback cannot add it (failed fetch, or the size-0
truthiness guard). -/
theorem fallbackPass_absent (f : Nat → Option Root) :
    ∀ (sizes : List Nat) (pr : List (Nat × ResolvedRoot)) (s : Nat),
      (f s = none ∨ s = 0) → (¬∃ w, (s, w) ∈ pr) →
      ¬∃ w, (s, w) ∈ fallbackPass f pr sizes := by
  intro sizes
  induction sizes with
  | nil => intro pr s _ habs; exact habs
  | cons sz rest ih =>
    intro pr s hf habs
    simp only [fallbackPass]
    split
    · rename_i hguard
      cases hfr : f sz with
      | none => exact ih pr s hf habs
      | some rt =>
        refine ih _ s hf ?_
        rw [keyMem_setKey]
        rintro (h | rfl)
        · exact habs h
        · rcases hf with hf | hf
          · rw [hfr] at hf; cases hf
          · subst hf
            simp at hguard
    · exact ih pr s hf habs

/-- Entries already resolved are never removed by the fallback loop. -/
theorem fallbackPass_present (f : Nat → Option Root) :
    ∀ (sizes : List Nat) (pr : List (Nat × ResolvedRoot)) (s : Nat),
      (∃ w, (s, w) ∈ pr) → ∃ w, (s, w) ∈ fallbackPass f pr sizes := by
  intro sizes
  induction sizes with
  | nil => intro pr s h; exact h
  | cons sz rest ih =>
    intro pr s hpres
    simp only [fallbackPass]
    split
    · cases hfr : f sz with
      | none => exact ih pr s hpres
      | some rt => exact ih _ s (keyMem_setKey.mpr (Or.inl hpres))
    · exact ih pr s hpres

theorem anchoredPass_aux (edges : List Edge) :
    ∀ (acc : List (Nat × ResolvedRoot)) (s : Nat),
      (∃ w, (s, w) ∈ edges.foldl
        (fun pr edge =>
          match (edge.tags.filter (fun t => t.name == "tree_size")).head? with
          | none => pr
          | some tag =>
            setKey pr tag.value { content := edge.content, transactionId := some edge.id })
        acc) ↔
      (∃ w, (s, w) ∈ acc) ∨ s ∈ anchoredSizes edges := by
  induction edges with
  | nil => intro acc s; simp [anchoredSizes]
  | cons edge rest ih =>
    intro acc s
    rw [List.foldl_cons, ih]
    cases htag : (edge.tags.filter (fun t => t.name == "tree_size")).head? with
    | none =>
      have hsz : anchoredSizes (edge :: rest) = anchoredSizes rest := by
        unfold anchoredSizes
        rw [List.filterMap_cons]
        rw [htag]
        rfl
      rw [hsz]
    | some tag =>
      have hsz : anchoredSizes (edge :: rest) = tag.value :: anchoredSizes rest := by
        unfold anchoredSizes
        rw [List.filterMap_cons]
        rw [htag]
        rfl
      simp only [keyMem_setKey]
      rw [hsz]
      constructor
      · rintro ((h | rfl) | h)
        · exact Or.inl h
        · exact Or.inr (List.mem_cons_self _ _)
        · exact Or.inr (List.mem_cons_of_mem _ h)
      · rintro (h | h)
        · exact Or.inl (Or.inl h)
        · rcases List.mem_cons.mp h with rfl | h'
          · exact Or.inl (Or.inr rfl)
          · exact Or.inr h'

/-- The first resolver loop resolves exactly the anchored sizes. -/
theorem anchoredPass_mem (edges : List Edge) (s : Nat) :
    (∃ w, (s, w) ∈ anchoredPass edges) ↔ s ∈ anchoredSizes edges := by
  unfold anchoredPass
  rw [anchoredPass_aux]
  simp

/-- C6 (counterexample): requested size 0, nothing anchored, and an
always-succeeding live-root callback: the claim's resolver resolves 0
through the fallback, but the code's `if (treeSize && …)` truthiness
guard never consults the callback for size 0, so 0 is absent — the claim
"for every requested tree size not resolved from the anchoring index, it
falls back to the live root-query callback" is false at size 0. -/
theorem resolver_zero_size_counterexample :
    ((claimPublishedRoots "t" [0] (fun _ _ => []) (fun _ => some {})).any
        (fun p => p.1 == 0)) = true ∧
    ((getArweavePublishedRoots "t" [0] (fun _ _ => []) (fun _ => some {})).any
        (fun p => p.1 == 0)) = false := by
  constructor
  · rfl
  · rfl

/-- C6 (amended): the resolver degrades gracefully for every NONZERO
requested size: if such a size is not resolved from the anchoring index
and its live-root fallback fails, it is simply absent from the returned
mapping (the resolver itself is a total function — no error reaches the
caller); sizes resolved from the anchoring index are always present.
Size 0 is never fallback-queried because of the `treeSize &&` truthiness
guard. -/
theorem resolver_graceful_degradation :
    (∀ (treeName : String) (treeSizes : List Nat) (qi : String → List Nat → List Edge)
      (fetchRoot : Nat → Option Root) (s : Nat),
      s ∈ treeSizes → s ≠ 0 →
      s ∉ anchoredSizes (qi treeName treeSizes) → fetchRoot s = none →
      ¬∃ w, (s, w) ∈ getArweavePublishedRoots treeName treeSizes qi fetchRoot) ∧
    (∀ (treeName : String) (treeSizes : List Nat) (qi : String → List Nat → List Edge)
      (fetchRoot : Nat → Option Root) (s : Nat),
      treeSizes ≠ [] →
      s ∈ anchoredSizes (qi treeName treeSizes) →
      ∃ w, (s, w) ∈ getArweavePublishedRoots treeName treeSizes qi fetchRoot) := by
  constructor
  · intro treeName treeSizes qi fetchRoot s hmem hnz hanch hfail
    have hne : treeSizes.isEmpty = false := by
      cases treeSizes with
      | nil => simp at hmem
      | cons a rest => rfl
    simp only [getArweavePublishedRoots, hne, Bool.false_eq_true, if_false]
    exact fallbackPass_absent fetchRoot treeSizes _ s (Or.inl hfail)
      (fun h => hanch ((anchoredPass_mem _ s).mp h))
  · intro treeName treeSizes qi fetchRoot s hne hanch
    have hne' : treeSizes.isEmpty = false := by
      cases treeSizes with
      | nil => exact absurd rfl hne
      | cons a rest => rfl
    simp only [getArweavePublishedRoots, hne', Bool.false_eq_true, if_false]
    exact fallbackPass_present fetchRoot treeSizes _ s ((anchoredPass_mem _ s).mpr hanch)

/-- Witness for C6 (amended): sizes `{5,7,9}` with only `{5,9}` anchored
and an always-failing fallback — the result contains 5 and 9 but not 7. -/
theorem resolver_graceful_degradation_witness :
    (¬∃ w, (7, w) ∈ getArweavePublishedRoots "t" [5, 7, 9]
      (fun _ _ => [⟨"tx5", [⟨"tree_size", 5⟩], Json.null⟩,
                   ⟨"tx9", [⟨"tree_size", 9⟩], Json.null⟩])
      (fun _ => none)) ∧
    (∃ w, (5, w) ∈ getArweavePublishedRoots "t" [5, 7, 9]
      (fun _ _ => [⟨"tx5", [⟨"tree_size", 5⟩], Json.null⟩,
                   ⟨"tx9", [⟨"tree_size", 9⟩], Json.null⟩])
      (fun _ => none)) ∧
    (∃ w, (9, w) ∈ getArweavePublishedRoots "t" [5, 7, 9]
      (fun _ _ => [⟨"tx5", [⟨"tree_size", 5⟩], Json.null⟩,
                   ⟨"tx9", [⟨"tree_size", 9⟩], Json.null⟩])
      (fun _ => none)) :=
  ⟨resolver_graceful_degradation.1 "t" [5, 7, 9] _ _ 7 (by decide) (by decide)
      (by simp [anchoredSizes]) rfl,
   resolver_graceful_degradation.2 "t" [5, 7, 9] _ _ 5 (by simp)
      (by simp [anchoredSizes]),
   resolver_graceful_degradation.2 "t" [5, 7, 9] _ _ 9 (by simp)
      (by simp [anchoredSizes])⟩

/-- C8 (counterexample): two sequential search-response processings on one
service instance, with a consistency checker that reports whether the
`PublishedRoots` mapping it is given contains tree size 5.  Call 1 (root
present, size 5 anchored) stores `{5 ↦ …}` in the instance field.  Call 2
(`verifyConsistency` set but its response carries NO root) resolves
nothing itself, yet its record's consistency verdict is `some true`: the
verdicts were computed against the entries resolved during call 1,
contradicting "never contains entries resolved during an earlier call".
The third conjunct shows the fresh-per-call behaviour the claim demands
would have produced `some false`. -/
theorem published_roots_staleness_counterexample :
    processSearchResponse
        ⟨fun _ _ => true, fun _ => true, fun _ _ => true, fun _ _ _ => true,
          fun _ _ => true, fun roots _ => roots.any (fun p => p.1 == 5)⟩
        (fun _ _ => [⟨"tx5", [⟨"tree_size", 5⟩], Json.null⟩]) (fun _ => none)
        []
        { success := some true,
          result := { events := [], root := some ⟨"t", some 5⟩, unpublished_root := none } }
        { verifyConsistency := true, skipEventVerification := true } =
      .ok ({ success := some true,
             result := { events := [], root := some ⟨"t", some 5⟩, unpublished_root := none } },
           [(5, { content := Json.null, transactionId := some "tx5" })]) ∧
    processSearchResponse
        ⟨fun _ _ => true, fun _ => true, fun _ _ => true, fun _ _ _ => true,
          fun _ _ => true, fun roots _ => roots.any (fun p => p.1 == 5)⟩
        (fun _ _ => [⟨"tx5", [⟨"tree_size", 5⟩], Json.null⟩]) (fun _ => none)
        [(5, { content := Json.null, transactionId := some "tx5" })]
        { success := some true,
          result := { events := [{ leaf_index := some 1 }], root := none,
                      unpublished_root := none } }
        { verifyConsistency := true, skipEventVerification := true } =
      .ok ({ success := some true,
             result := { events :=
                           [{ leaf_index := some 1, membership_verification := some true,
                              consistency_verification := some true }],
                         root := none, unpublished_root := none } },
           [(5, { content := Json.null, transactionId := some "tx5" })]) ∧
    processSearchResponse
        ⟨fun _ _ => true, fun _ => true, fun _ _ => true, fun _ _ _ => true,
          fun _ _ => true, fun roots _ => roots.any (fun p => p.1 == 5)⟩
        (fun _ _ => [⟨"tx5", [⟨"tree_size", 5⟩], Json.null⟩]) (fun _ => none)
        []
        { success := some true,
          result := { events := [{ leaf_index := some 1 }], root := none,
                      unpublished_root := none } }
        { verifyConsistency := true, skipEventVerification := true } =
      .ok ({ success := some true,
             result := { events :=
                           [{ leaf_index := some 1, membership_verification := some true,
                              consistency_verification := some false }],
                         root := none, unpublished_root := none } },
           []) :=
  ⟨rfl, rfl, rfl⟩

/-- C8 (amended): the `publishedRoots` field is rebuilt from the current
call's tree sizes when `verifyConsistency` is set AND the response carries
a root; when the response carries no root, the field keeps — and the
consistency verdicts are computed against — its previous contents, i.e.
entries resolved during an earlier call on the same instance.
(`prevUnpublishedRootHash` is untouched by search processing.) -/
theorem published_roots_reuse :
    (∀ (V : VerifyFns) (qi : String → List Nat → List Edge) (rootNet : Nat → Option Root)
      (pub : List (Nat × ResolvedRoot)) (resp : PangeaResponse SearchResult)
      (opts : SearchOptions)
      (out : PangeaResponse SearchResult × List (Nat × ResolvedRoot)),
      opts.verifyConsistency = true → opts.skipEventVerification = true →
      resp.success = some true → resp.result.root = none →
      processSearchResponse V qi rootNet pub resp opts = .ok out →
      out.2 = pub ∧
      out.1.result.events =
        attachSearchVerdicts V none resp.result.unpublished_root pub resp.result.events) ∧
    (∀ (V : VerifyFns) (qi : String → List Nat → List Edge) (rootNet : Nat → Option Root)
      (pub : List (Nat × ResolvedRoot)) (resp : PangeaResponse SearchResult)
      (opts : SearchOptions)
      (out : PangeaResponse SearchResult × List (Nat × ResolvedRoot)) (rt : Root),
      opts.verifyConsistency = true → opts.skipEventVerification = true →
      resp.success = some true → resp.result.root = some rt →
      processSearchResponse V qi rootNet pub resp opts = .ok out →
      out.2 = getArweavePublishedRoots rt.tree_name
          (collectTreeSizes (rt.size.getD 0) resp.result.events) qi rootNet ∧
      out.1.result.events =
        attachSearchVerdicts V (some rt) resp.result.unpublished_root out.2
          resp.result.events) := by
  constructor
  · intro V qi rootNet pub resp opts out hvc hskip hsucc hroot hok
    simp only [processSearchResponse, hsucc, hskip, hvc, hroot, if_true] at hok
    injection hok with h
    rw [← h]
    exact ⟨rfl, rfl⟩
  · intro V qi rootNet pub resp opts out rt hvc hskip hsucc hroot hok
    simp only [processSearchResponse, hsucc, hskip, hvc, hroot, if_true] at hok
    injection hok with h
    rw [← h]
    exact ⟨rfl, rfl⟩

/-- Witness for C8 (amended): a rootless verified search response keeps
the incoming `publishedRoots` and uses them for the verdicts. -/
theorem published_roots_reuse_witness :
    ((PangeaResponse.mk (some true)
        (SearchResult.mk
          [{ leaf_index := some 1, membership_verification := some true,
             consistency_verification := some true }] none none),
      [(5, ResolvedRoot.mk Json.null (some "tx5"))]).2 =
        [(5, ResolvedRoot.mk Json.null (some "tx5"))] ∧
     (PangeaResponse.mk (some true)
        (SearchResult.mk
          [{ leaf_index := some 1, membership_verification := some true,
             consistency_verification := some true }] none none),
      [(5, ResolvedRoot.mk Json.null (some "tx5"))]).1.result.events =
        attachSearchVerdicts
          ⟨fun _ _ => true, fun _ => true, fun _ _ => true, fun _ _ _ => true,
            fun _ _ => true, fun roots _ => roots.any (fun p => p.1 == 5)⟩
          none none [(5, ResolvedRoot.mk Json.null (some "tx5"))]
          [{ leaf_index := some 1 }]) :=
  published_roots_reuse.1
    ⟨fun _ _ => true, fun _ => true, fun _ _ => true, fun _ _ _ => true,
      fun _ _ => true, fun roots _ => roots.any (fun p => p.1 == 5)⟩
    (fun _ _ => [⟨"tx5", [⟨"tree_size", 5⟩], Json.null⟩]) (fun _ => none)
    [(5, ResolvedRoot.mk Json.null (some "tx5"))]
    { success := some true,
      result := { events := [{ leaf_index := some 1 }], root := none,
                  unpublished_root := none } }
    { verifyConsistency := true, skipEventVerification := true }
    _ rfl rfl rfl rfl rfl

end AuditLog
